import Mathlib

/-!
Verification of the deep-q-learner repository against its natural-language
specification.  The Python source under src/ is shallowly embedded below:
pure computations become Lean functions over ℚ (floating point replaced by
exact rationals), stateful training code becomes explicit state passing,
and the control loop of main.py becomes an explicit event trace.
-/

namespace DeepQ

/-! ## List maximum and argmax

torch.Tensor.argmax returns the index of the first occurrence of the
maximal value; torch.Tensor.max / Python max return the maximal value.
These model `c.argmax(1)` in SuperAgent.train (src/agents/super_agent.py
line 143), `argmax()` in Agent.action (src/agents/agent.py line 74) and
`max(survival_times[:-1])` in main.py line 93. -/

/-- Maximum of a list of rationals; 0 on the empty list (which the source
never queries). -/
def listMax : List ℚ → ℚ
  | [] => 0
  | [x] => x
  | x :: y :: ys => max x (listMax (y :: ys))

/-- Index of the first occurrence of the maximal element, as torch.argmax
computes it. -/
def argmaxIdx : List ℚ → Nat
  | [] => 0
  | [_] => 0
  | x :: y :: ys => if x < listMax (y :: ys) then argmaxIdx (y :: ys) + 1 else 0

theorem argmaxIdx_lt_length : ∀ (l : List ℚ), l ≠ [] → argmaxIdx l < l.length := by
  intro l hl
  induction l with
  | nil => exact absurd rfl hl
  | cons x t ih =>
    cases t with
    | nil => simp [argmaxIdx]
    | cons y ys =>
      simp only [argmaxIdx]
      by_cases h : x < listMax (y :: ys)
      · have := ih (by simp)
        simp only [h, if_true, List.length_cons] at this ⊢
        omega
      · simp [h]

theorem getD_argmaxIdx_eq_listMax : ∀ (l : List ℚ), l ≠ [] →
    l.getD (argmaxIdx l) 0 = listMax l := by
  intro l hl
  induction l with
  | nil => exact absurd rfl hl
  | cons x t ih =>
    cases t with
    | nil => simp [argmaxIdx, listMax]
    | cons y ys =>
      simp only [argmaxIdx, listMax]
      by_cases h : x < listMax (y :: ys)
      · simp only [h, if_true]
        have h2 := ih (by simp)
        simpa [List.getD_cons_succ, max_eq_right (le_of_lt h)] using h2
      · push_neg at h
        rw [if_neg (not_lt.mpr h)]
        simp [max_eq_left h]

/-! ## TD target computation (discrete variant)

One batch entry of the bootstrapped target in SuperAgent.train
(src/agents/super_agent.py lines 131-151): the next observation is paired
with every action of the enumerated action space, the ONLINE network
`self.__neural_network` scores all pairs and its argmax picks the best
next action (line 143), and the TARGET network
`self.__target_neural_network` then scores the chosen pair (lines
150-151):
  target = reward + discount_factor * (1 - terminated)
           * target_net(next_obs, argmax-action of online_net). -/

/-- Scores of one observation paired with every action of the action
space, as produced by a network forward pass over the stacked
observation-action rows. -/
def actionScores {α : Type} (net : α → ℚ → ℚ) (obs : α) (actionSpace : List ℚ) : List ℚ :=
  actionSpace.map (net obs)

/-- The next action chosen in SuperAgent.train line 143-145: index the
action space at the argmax of the online network's scores. -/
def bestNextAction {α : Type} (onlineNet : α → ℚ → ℚ) (actionSpace : List ℚ) (nextObs : α) : ℚ :=
  actionSpace.getD (argmaxIdx (actionScores onlineNet nextObs actionSpace)) 0

/-- The TD target of SuperAgent.train lines 150-151 for one batch entry. -/
def tdTarget {α : Type} (onlineNet targetNet : α → ℚ → ℚ) (discountFactor reward terminated : ℚ)
    (actionSpace : List ℚ) (nextObs : α) : ℚ :=
  reward + discountFactor * (1 - terminated) * targetNet nextObs (bestNextAction onlineNet actionSpace nextObs)

theorem net_bestNextAction_eq_listMax {α : Type} (net : α → ℚ → ℚ) (actionSpace : List ℚ)
    (obs : α) (h : actionSpace ≠ []) :
    net obs (bestNextAction net actionSpace obs) = listMax (actionScores net obs actionSpace) := by
  unfold bestNextAction
  set l := actionScores net obs actionSpace with hl
  have hlne : l ≠ [] := by
    simpa [hl, actionScores] using h
  have hlen : l.length = actionSpace.length := by simp [hl, actionScores]
  have hidx : argmaxIdx l < actionSpace.length := by
    have := argmaxIdx_lt_length l hlne
    omega
  have hmax := getD_argmaxIdx_eq_listMax l hlne
  have hget : l.getD (argmaxIdx l) 0 = net obs (actionSpace.getD (argmaxIdx l) 0) := by
    rw [List.getD_eq_getElem _ _ (by omega), List.getD_eq_getElem _ _ hidx]
    simp [hl, actionScores]
  rw [← hget, hmax]

/-! ## Exploration decay (src/agents/agent.py line 118)

The only mutation of the exploration probability is
`self.RANDOM_ACTION_PROBABILITY *= self.RANDOM_ACTION_PROBABILITY_DECAY`,
a bare multiplication: no floor is applied anywhere in Agent.train. -/

/-- One decay application, agent.py line 118. -/
def decayStep (p r : ℚ) : ℚ := p * r

/-- n successive decay applications starting from probability p. -/
def decayN (p r : ℚ) : Nat → ℚ
  | 0 => p
  | n + 1 => decayStep (decayN p r n) r

/-! ## Target-network synchronization (src/agents/super_agent.py lines 157-161)

After each gradient step, SuperAgent.train executes
  counter = (counter + 1) % target_network_update_time
  if counter == 0: target = deepcopy(online)
The counter starts at 0 (line 56) and nothing else in the class assigns
the target network after construction. -/

structure SyncState (P : Type) where
  counter : Nat
  online : P
  target : P

/-- One SuperAgent.train call's effect on (counter, online, target):
the gradient step has produced `newOnline`, then lines 157-161 run. -/
def trainSyncStep {P : Type} (updateTime : Nat) (s : SyncState P) (newOnline : P) : SyncState P :=
  let c := (s.counter + 1) % updateTime
  { counter := c
    online := newOnline
    target := if c = 0 then newOnline else s.target }

/-- A sequence of train calls, each delivering the online parameters it
produced. -/
def runTrainSync {P : Type} (updateTime : Nat) (s : SyncState P) : List P → SyncState P
  | [] => s
  | p :: ps => runTrainSync updateTime (trainSyncStep updateTime s p) ps

theorem runTrainSync_counter {P : Type} (T : Nat) (hT : 0 < T) (s : SyncState P)
    (hc : s.counter < T) : ∀ ps : List P,
    (runTrainSync T s ps).counter = (s.counter + ps.length) % T := by
  intro ps
  induction ps generalizing s with
  | nil => simpa [runTrainSync] using (Nat.mod_eq_of_lt hc).symm
  | cons p ps ih =>
    have hstep : (trainSyncStep T s p).counter = (s.counter + 1) % T := rfl
    have h1 : (trainSyncStep T s p).counter < T := by
      rw [hstep]; exact Nat.mod_lt _ hT
    have := ih (trainSyncStep T s p) h1
    rw [runTrainSync, this, hstep, Nat.mod_add_mod]
    congr 1
    simp only [List.length_cons]
    omega

theorem runTrainSync_sync {P : Type} (T : Nat) (s : SyncState P) :
    ∀ ps : List P, ps ≠ [] → (runTrainSync T s ps).counter = 0 →
    (runTrainSync T s ps).target = (runTrainSync T s ps).online := by
  intro ps
  induction ps generalizing s with
  | nil => intro h; exact absurd rfl h
  | cons p ps ih =>
    intro _ hzero
    cases ps with
    | nil =>
      simp only [runTrainSync] at hzero ⊢
      have ht : (trainSyncStep T s p).target
          = if (s.counter + 1) % T = 0 then p else s.target := rfl
      have ho : (trainSyncStep T s p).online = p := rfl
      have hcz : (s.counter + 1) % T = 0 := hzero
      rw [ht, ho, if_pos hcz]
    | cons q qs =>
      exact ih (trainSyncStep T s p) (by simp) hzero

/-- Claim C4: with a positive update interval T, the sync counter stays in
[0, T) and advances modulo T across train calls; whenever the counter
wraps to 0 — in particular after every T-th call starting from the
initial counter 0 — the target parameters equal the online parameters
produced by that very call; and a call whose counter does not wrap
leaves the target parameters untouched. -/
theorem C4_target_sync {P : Type} (T : Nat) (hT : 0 < T) (s : SyncState P)
    (hc : s.counter < T) (ps : List P) :
    (runTrainSync T s ps).counter = (s.counter + ps.length) % T
    ∧ (runTrainSync T s ps).counter < T
    ∧ (ps ≠ [] → (runTrainSync T s ps).counter = 0 →
        (runTrainSync T s ps).target = (runTrainSync T s ps).online)
    ∧ (s.counter = 0 → T ∣ ps.length → ps ≠ [] →
        (runTrainSync T s ps).target = (runTrainSync T s ps).online)
    ∧ (∀ p : P, (trainSyncStep T s p).counter ≠ 0 →
        (trainSyncStep T s p).target = s.target) := by
  have hcount := runTrainSync_counter T hT s hc ps
  refine ⟨hcount, ?_, runTrainSync_sync T s ps, ?_, ?_⟩
  · rw [hcount]; exact Nat.mod_lt _ hT
  · intro h0 hdvd hne
    refine runTrainSync_sync T s ps hne ?_
    rw [hcount, h0, Nat.zero_add]
    obtain ⟨k, hk⟩ := hdvd
    simp [hk, Nat.mul_mod_right]
  · intro p hne
    have ht : (trainSyncStep T s p).target
        = if (s.counter + 1) % T = 0 then p else s.target := rfl
    have hne' : (s.counter + 1) % T ≠ 0 := hne
    rw [ht, if_neg hne']

/-! ## Checkpoint selection (src/main.py lines 93-94)

Each validation interval appends the mean validation score to
survival_times and then runs
  if len(survival_times) < 2 or survival_times[-1] >= max(survival_times[:-1]):
      best_state_dicts = super_agent.state_dicts
We model the condition on (scores so far, current score): after the
append, survival_times = prevScores ++ [current]. -/

/-- Python max over a list: none on the empty list (where Python raises,
which the short-circuiting `or` prevents). -/
def pyMax : List ℚ → Option ℚ
  | [] => none
  | x :: xs => some (xs.foldl max x)

/-- The snapshot guard of main.py line 93. -/
def snapshotCond (prevScores : List ℚ) (current : ℚ) : Bool :=
  decide ((prevScores ++ [current]).length < 2) ||
    match pyMax prevScores with
    | none => true
    | some m => decide (m ≤ current)

/-- The guard evaluated over a whole sequence of validation scores, the
way the training loop of main.py produces it. -/
def snapshotFlags (prevScores : List ℚ) : List ℚ → List Bool
  | [] => []
  | c :: rest => snapshotCond prevScores c :: snapshotFlags (prevScores ++ [c]) rest

theorem foldl_max_le_iff (c : ℚ) : ∀ (xs : List ℚ) (x : ℚ),
    xs.foldl max x ≤ c ↔ (x ≤ c ∧ ∀ y ∈ xs, y ≤ c) := by
  intro xs
  induction xs with
  | nil => intro x; simp
  | cons y ys ih =>
    intro x
    rw [List.foldl_cons, ih (max x y)]
    simp only [max_le_iff, List.mem_cons]
    constructor
    · rintro ⟨⟨hx, hy⟩, hall⟩
      exact ⟨hx, fun z hz => hz.elim (fun h => h ▸ hy) (hall z)⟩
    · rintro ⟨hx, hall⟩
      exact ⟨⟨hx, hall y (Or.inl rfl)⟩, fun z hz => hall z (Or.inr hz)⟩

/-! ## Action-space bounds (src/agents/agent.py lines 67-87,
src/agents/super_agent.py lines 90-104)

POSSIBLE_ACTIONS = [0, 1] and ACTION_LENGTH = 1, so the enumerated
action space built from combinations_with_replacement of length 1 is the
list of singleton vectors [[0], [1]].  Agent.action either takes the
argmax of the network's scores over the action space (greedy branch,
also SuperAgent.base_action) or a uniformly random index into the same
action space; both branches return an element of the action space. -/

def POSSIBLE_ACTIONS : List ℚ := [0, 1]

/-- The enumerated action space for ACTION_LENGTH = 1: one singleton
vector per possible action. -/
def actionSpaceVectors : List (List ℚ) := POSSIBLE_ACTIONS.map (fun a => [a])

/-- Agent.action's selection (agent.py lines 71-79): greedy when not
training or when the uniform draw exceeds the exploration probability,
otherwise a random index into the action space. -/
def chooseAction (training randGtProb : Bool) (netScores : List ℚ) (randIdx : Nat) : List ℚ :=
  if !training || randGtProb then actionSpaceVectors.getD (argmaxIdx netScores) []
  else actionSpaceVectors.getD randIdx []

theorem actionSpaceVectors_getD_bounded (i : Nat) :
    ∀ c ∈ actionSpaceVectors.getD i [], -1 ≤ c ∧ c ≤ 1 := by
  match i with
  | 0 => intro c hc; simp [actionSpaceVectors, POSSIBLE_ACTIONS] at hc; simp [hc]
  | 1 => intro c hc; simp [actionSpaceVectors, POSSIBLE_ACTIONS] at hc; simp [hc]
  | n + 2 =>
    intro c hc
    have : actionSpaceVectors.getD (n + 2) [] = [] := by
      simp [actionSpaceVectors, POSSIBLE_ACTIONS, List.getD]
    rw [this] at hc
    exact absurd hc (List.not_mem_nil c)

/-! ## Training-loop interruption (src/main.py lines 81-104)

train_run wraps an unbounded `for iteration in tqdm.tqdm(itertools.count())`
loop in try/except KeyboardInterrupt; the handler saves the best state
dictionaries once and the function returns.  We model a run in which the
interrupt is raised at the start of iteration `interruptAt`: completed
iterations produce `iteration n` events, the handler produces a single
`savePersist` event, and the loop body never resumes.  `fuel` bounds the
modelled execution; `none` means the fuel ran out while the loop was
still live. -/

inductive TrainEvent where
  | iteration (n : Nat)
  | savePersist
deriving DecidableEq

/-- The try-block loop of main.py lines 82-98 with the except-handler of
lines 99-104: iterate from i, finishing each iteration before the
interrupt point, then run the save path exactly once. -/
def loopRun (interruptAt : Nat) : Nat → Nat → Option (List TrainEvent)
  | 0, _ => none
  | fuel + 1, i =>
    if i = interruptAt then some [TrainEvent.savePersist]
    else (loopRun interruptAt fuel (i + 1)).map (fun evs => TrainEvent.iteration i :: evs)

/-- train_run's observable event trace when interrupted at iteration
`interruptAt`. -/
def trainRunEvents (interruptAt fuel : Nat) : Option (List TrainEvent) :=
  loopRun interruptAt fuel 0

theorem loopRun_eq (k : Nat) : ∀ (fuel i : Nat), i ≤ k → k - i < fuel →
    loopRun k fuel i
      = some ((List.range' i (k - i)).map TrainEvent.iteration ++ [TrainEvent.savePersist]) := by
  intro fuel
  induction fuel with
  | zero => intro i _ h; omega
  | succ f ih =>
    intro i hik hlt
    by_cases h : i = k
    · subst h
      simp [loopRun]
    · have hik' : i + 1 ≤ k := by omega
      have hlt' : k - (i + 1) < f := by omega
      simp only [loopRun]
      rw [if_neg h, ih (i + 1) hik' hlt']
      simp only [Option.map_some']
      congr 1
      have hsplit : k - i = (k - (i + 1)) + 1 := by omega
      rw [hsplit, List.range'_succ]
      simp

/-! ## Startup file loading (src/agents/agent.py lines 25-59,
src/agents/super_agent.py lines 48-53)

Both constructors wrap their load in try/except FileNotFoundError: an
absent file falls back to a freshly initialized buffer/parameter set
instead of propagating the error.  A file system is modelled as
`Option` content; reading an absent path raises fileNotFound. -/

inductive FileError where
  | fileNotFound
deriving DecidableEq

/-- Python open / torch.load: raises FileNotFoundError when the path is
absent, otherwise yields the content. -/
def readFile {α : Type} (contents : Option α) : Except FileError α :=
  match contents with
  | none => Except.error FileError.fileNotFound
  | some a => Except.ok a

/-- The buffer load of agent.py lines 27-33: try pickle.load, on
FileNotFoundError construct a fresh Buffer. -/
def loadBufferOrInit {α : Type} (file : Option α) (freshBuffer : α) : Except FileError α :=
  match readFile file with
  | Except.ok b => Except.ok b
  | Except.error FileError.fileNotFound => Except.ok freshBuffer

/-- The model load of agent.py lines 55-59 and super_agent.py lines
48-53: try load_state_dict(torch.load(path)), on FileNotFoundError keep
the freshly initialized network. -/
def loadModelOrInit {α : Type} (file : Option α) (freshParams : α) : Except FileError α :=
  match readFile file with
  | Except.ok m => Except.ok m
  | Except.error FileError.fileNotFound => Except.ok freshParams

/-! ## Runner step (src/agents/runner.py lines 28-36) -/

structure EnvStepResult (O : Type) where
  observation : O
  reward : ℚ
  terminated : Bool
  truncated : Bool

structure RunnerStepEffects (O : Type) where
  recordedReward : ℚ
  recordedDead : Bool
  didReset : Bool
  nextObservation : O
  returned : Bool × ℚ

/-- Runner.step: combine terminated/truncated into dead, record the
reward with the dead flag via agent.reward, reset the environment
exactly when dead, return (dead, reward). -/
def runnerStep {O : Type} (resp : EnvStepResult O) (resetObservation : O) : RunnerStepEffects O :=
  let dead := resp.terminated || resp.truncated
  { recordedReward := resp.reward
    recordedDead := dead
    didReset := dead
    nextObservation := if dead then resetObservation else resp.observation
    returned := (dead, resp.reward) }

/-! ## Frame effects of a non-training agent (src/agents/agent.py)

Agent(training=False) sets self.buffer = None; Agent.training is
`self.buffer is not None`; Agent.action only pushes when training
(lines 85-86), Agent.reward returns immediately when not training
(lines 90-91), and Agent.train returns immediately when not training
(lines 96-97) — the exploration probability is only decayed inside
train after that guard (line 118). -/

structure AgentState (B P : Type) where
  buffer : Option B
  params : P
  randomActionProbability : ℚ

/-- Agent.training (agent.py lines 63-65). -/
def agentTraining {B P : Type} (s : AgentState B P) : Bool := s.buffer.isSome

/-- The state effect of Agent.action (agent.py lines 85-86): push the
observation-action only when a buffer exists. -/
def agentActionState {B P : Type} (pushObservation : B → B) (s : AgentState B P) :
    AgentState B P :=
  match s.buffer with
  | some b => { s with buffer := some (pushObservation b) }
  | none => s

/-- The state effect of Agent.train (agent.py lines 95-119): return
unchanged unless training and the buffer is ready; otherwise one
gradient step and one exploration decay. -/
def agentTrainState {B P : Type} (bufferReady : B → Bool) (gradientStep : P → P)
    (decayRate : ℚ) (s : AgentState B P) : AgentState B P :=
  match s.buffer with
  | none => s
  | some b =>
    if bufferReady b then
      { s with params := gradientStep s.params
               randomActionProbability := s.randomActionProbability * decayRate }
    else s

/-- The state effect of Agent.reward (agent.py lines 89-93): return
unchanged when not training, otherwise push the reward and train. -/
def agentRewardState {B P : Type} (pushReward : B → B) (bufferReady : B → Bool)
    (gradientStep : P → P) (decayRate : ℚ) (s : AgentState B P) : AgentState B P :=
  match s.buffer with
  | none => s
  | some b =>
    agentTrainState bufferReady gradientStep decayRate { s with buffer := some (pushReward b) }

end DeepQ

open DeepQ

/-- Witness for C4: the theorem applied at T = 2, initial counter 0 and
two train calls; the target equals the online parameters after the
second call. -/
theorem C4_target_sync_witness :
    (runTrainSync 2 (SyncState.mk 0 (0 : ℚ) 0) [5, 7]).target
      = (runTrainSync 2 (SyncState.mk 0 (0 : ℚ) 0) [5, 7]).online :=
  (C4_target_sync 2 (by decide) (SyncState.mk 0 (0 : ℚ) 0) (by decide) [5, 7]).2.2.2.1
    rfl (by decide) (by simp)

/-- Claim C5: the best-known snapshot is replaced exactly when the
current validation score meets-or-exceeds every previous score (the
first score, where fewer than two entries exist, always triggers), and
on the score sequence [10, 8, 12, 9] the snapshot triggers exactly at 10
and 12. -/
theorem C5_checkpoint_selection :
    (∀ (prev : List ℚ) (c : ℚ),
      snapshotCond prev c = true ↔ (prev = [] ∨ ∀ x ∈ prev, x ≤ c))
    ∧ snapshotFlags [] [10, 8, 12, 9] = [true, false, true, false] := by
  constructor
  · intro prev c
    cases prev with
    | nil => simp [snapshotCond, pyMax]
    | cons x xs =>
      simp only [snapshotCond, pyMax, List.length_append, List.length_cons,
        List.length_singleton, Bool.or_eq_true, decide_eq_true_eq]
      rw [foldl_max_le_iff c xs x]
      constructor
      · rintro (h | ⟨hx, hall⟩)
        · omega
        · exact Or.inr fun z hz => (List.mem_cons.mp hz).elim (fun h => h ▸ hx) (hall z)
      · rintro (h | hall)
        · exact absurd h (List.cons_ne_nil x xs)
        · exact Or.inr ⟨hall x (List.mem_cons_self x xs),
            fun z hz => hall z (List.mem_cons_of_mem x hz)⟩
  · norm_num [snapshotFlags, snapshotCond, pyMax]

/-- Witness for C5: the theorem applied at the concrete score history
[10, 8] with current score 12. -/
theorem C5_checkpoint_selection_witness : snapshotCond [10, 8] 12 = true :=
  (C5_checkpoint_selection.1 [10, 8] 12).mpr (Or.inr (by norm_num))

/-- Claim C6: whichever branch Agent.action takes (greedy argmax over the
action space, or a random index into it) and whatever the network's
scores and the random index are, every component of the returned action
lies in [-1, 1], so the guarding assertions at agent.py lines 83-84 and
super_agent.py lines 102-103 never fail. -/
theorem C6_action_bounds (training randGtProb : Bool) (netScores : List ℚ) (randIdx : Nat) :
    ∀ c ∈ chooseAction training randGtProb netScores randIdx, -1 ≤ c ∧ c ≤ 1 := by
  intro c hc
  unfold chooseAction at hc
  by_cases h : (!training || randGtProb) = true
  · rw [if_pos h] at hc
    exact actionSpaceVectors_getD_bounded _ c hc
  · rw [if_neg h] at hc
    exact actionSpaceVectors_getD_bounded _ c hc

/-- Witness for C6: the theorem applied to the exploration branch with
random index 1, whose chosen action is the singleton vector [1]. -/
theorem C6_action_bounds_witness : (-1 : ℚ) ≤ 1 ∧ (1 : ℚ) ≤ 1 :=
  C6_action_bounds true false [0, 1] 1 1
    (by norm_num [chooseAction, actionSpaceVectors, POSSIBLE_ACTIONS])

/-- Claim C1, counterexample: SuperAgent.train picks the best next action
with the ONLINE network (line 139/143) and only evaluates that chosen
action with the target network (lines 150-151).  With online scores
1 - a and target scores a over action space [0, 1], the online argmax
picks action 0, the code's target is reward + γ·(1-t)·targetNet(obs, 0)
= 0, while the claimed formula reward + γ·(1-t)·max_a targetNet(obs, a)
gives 1/2. -/
theorem C1_counterexample :
    tdTarget (fun (_ : Unit) a => 1 - a) (fun (_ : Unit) a => a) (1/2) 0 0 [0, 1] () ≠
      0 + (1/2 : ℚ) * (1 - 0) * listMax (actionScores (fun (_ : Unit) a => a) () [0, 1]) := by
  norm_num [tdTarget, bestNextAction, actionScores, argmaxIdx, listMax]

/-- Claim C1, amended: the TD target equals the reward plus
discount_factor times (1 - terminated) times the TARGET network's score
of the next observation paired with the action whose ONLINE-network
score is maximal over the enumerated action space (Double-DQN style);
when online and target parameters coincide this reduces to the claimed
max-over-target form, and an online scorer mapping action a to a over
action space [0, 1] selects action 1. -/
theorem C1_td_target_double_dqn {α : Type} (onlineNet targetNet : α → ℚ → ℚ)
    (γ r t : ℚ) (actionSpace : List ℚ) (obs : α) (h : actionSpace ≠ []) :
    tdTarget onlineNet targetNet γ r t actionSpace obs
      = r + γ * (1 - t) * targetNet obs (bestNextAction onlineNet actionSpace obs)
    ∧ onlineNet obs (bestNextAction onlineNet actionSpace obs)
      = listMax (actionScores onlineNet obs actionSpace)
    ∧ tdTarget onlineNet onlineNet γ r t actionSpace obs
      = r + γ * (1 - t) * listMax (actionScores onlineNet obs actionSpace)
    ∧ bestNextAction (fun _ a => a) [0, 1] obs = 1 := by
  refine ⟨rfl, net_bestNextAction_eq_listMax onlineNet actionSpace obs h, ?_, ?_⟩
  · unfold tdTarget
    rw [net_bestNextAction_eq_listMax onlineNet actionSpace obs h]
  · norm_num [bestNextAction, actionScores, argmaxIdx, listMax]

/-- Witness for C1: the theorem applied at a concrete instance. -/
theorem C1_td_target_double_dqn_witness :
    bestNextAction (fun (_ : Unit) a => a) [0, 1] () = 1 :=
  (C1_td_target_double_dqn (fun _ a => a) (fun _ a => a) (9/10) 2 0 [0, 1] ()
    (by decide)).2.2.2

/-- Claim C2: with termination flag 1 the bootstrap term is multiplied by
(1 - 1) = 0, so the TD target of SuperAgent.train lines 150-151 (and the
identical formula in Agent.train lines 112-113) equals the immediate
reward exactly, for every discount factor and every pair of networks. -/
theorem C2_termination_masking {α : Type} (onlineNet targetNet : α → ℚ → ℚ)
    (γ r : ℚ) (actionSpace : List ℚ) (obs : α) :
    tdTarget onlineNet targetNet γ r 1 actionSpace obs = r := by
  unfold tdTarget
  ring

/-- Claim C3, counterexample: the decay in agent.py line 118 is a bare
multiplication with no floor, so with p0 = 1, r = 1/2 ∈ (0, 1), floor
f = 1/10 and n = 4 applications the code yields 1/16, not
max(1·(1/2)^4, 1/10) = 1/10, and the probability drops below the
floor. -/
theorem C3_counterexample :
    decayN 1 (1/2) 4 ≠ max ((1 : ℚ) * (1/2) ^ 4) (1/10)
    ∧ decayN 1 (1/2) 4 < 1/10
    ∧ (0 : ℚ) < 1/2 ∧ (1/2 : ℚ) < 1 := by
  norm_num [decayN, decayStep]

/-- Claim C3, amended: applying the decay of agent.py line 118 n times
yields exactly p0 · r^n (no floor is applied); for 0 ≤ r ≤ 1 and p0 ≥ 0
the exploration probability is non-increasing in n, and for decay rate
r < 1 it eventually drops below any positive floor. -/
theorem C3_decay_pow (p r : ℚ) (n : Nat) :
    decayN p r n = p * r ^ n
    ∧ (0 ≤ p → 0 ≤ r → r ≤ 1 → decayN p r (n + 1) ≤ decayN p r n)
    ∧ (0 ≤ p → 0 ≤ r → r < 1 → ∀ f : ℚ, 0 < f → ∃ m, decayN p r m < f) := by
  have hpow : ∀ m, decayN p r m = p * r ^ m := by
    intro m
    induction m with
    | zero => simp [decayN]
    | succ k ih => rw [decayN, decayStep, ih, pow_succ]; ring
  refine ⟨hpow n, fun hp hr hr1 => ?_, fun hp _ hr1 f hf => ?_⟩
  · rw [hpow n, hpow (n + 1), pow_succ]
    have h1 : r ^ n * r ≤ r ^ n * 1 :=
      mul_le_mul_of_nonneg_left hr1 (pow_nonneg hr n)
    have h2 : r ^ n * r ≤ r ^ n := by simpa using h1
    exact mul_le_mul_of_nonneg_left h2 hp
  · rcases eq_or_lt_of_le hp with hp0 | hp0
    · refine ⟨0, ?_⟩
      rw [hpow 0, ← hp0]
      simpa using hf
    · obtain ⟨m, hm⟩ := exists_pow_lt_of_lt_one (div_pos hf hp0) hr1
      refine ⟨m, ?_⟩
      rw [hpow m]
      calc p * r ^ m = r ^ m * p := by ring
        _ < f := (lt_div_iff₀ hp0).mp hm

/-- Witness for C3: the amended theorem applied at p0 = 1, r = 1/2,
n = 2 and floor 1/10. -/
theorem C3_decay_pow_witness :
    decayN 1 (1/2) (2 + 1) ≤ decayN 1 (1/2) 2 ∧ ∃ m, decayN 1 (1/2) m < 1/10 :=
  ⟨(C3_decay_pow 1 (1/2) 2).2.1 (by norm_num) (by norm_num) (by norm_num),
   (C3_decay_pow 1 (1/2) 2).2.2 (by norm_num) (by norm_num) (by norm_num) (1/10) (by norm_num)⟩

/-- Claim C7: when the training loop of main.py is interrupted at
iteration k (with enough fuel to reach it), the event trace consists of
the k completed iterations followed by a single persistence event: the
save path runs exactly once, nothing runs after it, and no iteration at
or beyond the interrupt point executes. -/
theorem C7_interrupt_persists_once (k fuel : Nat) (h : k < fuel) :
    trainRunEvents k fuel
      = some ((List.range k).map TrainEvent.iteration ++ [TrainEvent.savePersist])
    ∧ ((List.range k).map TrainEvent.iteration ++ [TrainEvent.savePersist]).count
        TrainEvent.savePersist = 1
    ∧ (∀ n, TrainEvent.iteration n ∈
        (List.range k).map TrainEvent.iteration ++ [TrainEvent.savePersist] → n < k)
    ∧ ((List.range k).map TrainEvent.iteration ++ [TrainEvent.savePersist]).getLast?
        = some TrainEvent.savePersist := by
  refine ⟨?_, ?_, ?_, List.getLast?_concat _⟩
  · unfold trainRunEvents
    rw [loopRun_eq k fuel 0 (Nat.zero_le k) (by omega), List.range_eq_range']
    simp
  · rw [List.count_append]
    have h1 : ((List.range k).map TrainEvent.iteration).count TrainEvent.savePersist = 0 := by
      rw [List.count_eq_zero]
      intro hmem
      obtain ⟨n, -, hn⟩ := List.mem_map.mp hmem
      exact TrainEvent.noConfusion hn
    rw [h1]
    simp
  · intro n hmem
    rcases List.mem_append.mp hmem with h1 | h1
    · obtain ⟨m, hm, he⟩ := List.mem_map.mp h1
      injection he with he'
      exact he' ▸ List.mem_range.mp hm
    · simp at h1

/-- Witness for C7: the theorem applied at interrupt point 3 with fuel 5. -/
theorem C7_interrupt_persists_once_witness :
    trainRunEvents 3 5
      = some ((List.range 3).map TrainEvent.iteration ++ [TrainEvent.savePersist]) :=
  (C7_interrupt_persists_once 3 5 (by omega)).1

/-- Claim C8: an absent checkpoint file or buffer snapshot at startup is
not an error — construction yields the freshly initialized buffer and
parameters; when a file exists its content is loaded; and the load path
never produces an error outcome for any file state. -/
theorem C8_missing_file_fresh_start {B P : Type} (freshBuffer : B) (freshParams : P)
    (b : B) (m : P) :
    loadBufferOrInit none freshBuffer = Except.ok freshBuffer
    ∧ loadModelOrInit (none : Option P) freshParams = Except.ok freshParams
    ∧ loadBufferOrInit (some b) freshBuffer = Except.ok b
    ∧ loadModelOrInit (some m) freshParams = Except.ok m
    ∧ (∀ file : Option B, ∃ v, loadBufferOrInit file freshBuffer = Except.ok v)
    ∧ (∀ file : Option P, ∃ v, loadModelOrInit file freshParams = Except.ok v) := by
  refine ⟨rfl, rfl, rfl, rfl, ?_, ?_⟩
  · intro file
    cases file with
    | none => exact ⟨freshBuffer, rfl⟩
    | some x => exact ⟨x, rfl⟩
  · intro file
    cases file with
    | none => exact ⟨freshParams, rfl⟩
    | some x => exact ⟨x, rfl⟩

/-- Claim C9: Runner.step records the reward together with the
disjunction of terminated and truncated as the single dead flag, resets
the episode exactly when that flag is true, and returns the same flag
with the reward. -/
theorem C9_runner_dead_flag {O : Type} (resp : EnvStepResult O) (resetObs : O) :
    (runnerStep resp resetObs).recordedDead = (resp.terminated || resp.truncated)
    ∧ (runnerStep resp resetObs).recordedReward = resp.reward
    ∧ ((runnerStep resp resetObs).didReset = true
        ↔ (resp.terminated = true ∨ resp.truncated = true))
    ∧ ((runnerStep resp resetObs).didReset = false
        ↔ (resp.terminated = false ∧ resp.truncated = false))
    ∧ (runnerStep resp resetObs).returned
        = (resp.terminated || resp.truncated, resp.reward) := by
  refine ⟨rfl, rfl, ?_, ?_, rfl⟩
  · show (resp.terminated || resp.truncated) = true ↔ _
    simp [Bool.or_eq_true]
  · show (resp.terminated || resp.truncated) = false ↔ _
    simp

/-- Claim C10: for an agent constructed with training disabled (buffer
None), the action operation pushes nothing into the buffer and the
reward and train operations leave the whole state — buffer, parameters
and exploration probability — unchanged. -/
theorem C10_no_training_frame {B P : Type} (pushObservation pushReward : B → B)
    (bufferReady : B → Bool) (gradientStep : P → P) (decayRate : ℚ)
    (s : AgentState B P) (h : s.buffer = none) :
    agentActionState pushObservation s = s
    ∧ agentRewardState pushReward bufferReady gradientStep decayRate s = s
    ∧ agentTrainState bufferReady gradientStep decayRate s = s
    ∧ agentTraining s = false := by
  refine ⟨?_, ?_, ?_, ?_⟩
  · unfold agentActionState; rw [h]
  · unfold agentRewardState; rw [h]
  · unfold agentTrainState; rw [h]
  · unfold agentTraining; rw [h]; rfl

/-- Witness for C10: the theorem applied to a concrete non-training
agent state. -/
theorem C10_no_training_frame_witness :
    agentTraining (AgentState.mk (none : Option ℚ) (0 : ℚ) 1) = false :=
  (C10_no_training_frame id id (fun _ => true) id (1/2)
    (AgentState.mk (none : Option ℚ) (0 : ℚ) 1) rfl).2.2.2

